import Mathlib

/-!
# Verification of the chess-trainer board-state engine

This file gives a shallow embedding of the `BoardState` engine
(`src/unnamed/part_001`) of the chess-trainer repository and proves (or
refutes) a collection of stated properties about it.

Conventions of the embedding, mirroring the JavaScript source:
* `position[file][rank]` becomes a function `Fin 8 → Fin 8 → Piece`; the
  helper `getp` performs the source's array read at `Int` coordinates,
  yielding the empty piece `Piece.ee` when the coordinates fall outside the
  board (the JavaScript instead yields `undefined` and then crashes on the
  subsequent character access; a separately instrumented pawn generator
  `getPawnMovesChecked` models that crash faithfully as `Option.none`).
* Two-character square strings such as `"e4"` become `Sq` records of
  integer file and rank (`"a"`→0 … `"h"`→7, `"1"`→0 … `"8"`→7).
* Two-character piece strings such as `"wp"` become the inductive `Piece`;
  the string `"ee"` becomes `Piece.ee`.  Comparisons on `piece[0]` and
  `piece[1]` become comparisons on `colorOf`/`kindOf` (with `none` playing
  the role of the character `'e'` of `"ee"`).
* The sentinel string `"-"` held by `twoSquarePawnMove` becomes
  `Option.none`.
* The mutating methods become state-passing functions; `copy()` followed by
  mutation of the copy is value-semantics function application.
-/

set_option maxHeartbeats 4000000

namespace ChessTrainer

/-- Piece color: char `"w"` or `"b"` of the source's piece strings. -/
inductive Color
  | w
  | b
deriving DecidableEq, Repr

/-- Piece kind: second char of the source's piece strings. -/
inductive Kind
  | p
  | r
  | n
  | b
  | q
  | k
deriving DecidableEq, Repr

/-- A board cell: `"ee"` or a two-char piece string. -/
inductive Piece
  | ee
  | mk (c : Color) (knd : Kind)
deriving DecidableEq, Repr

/-- First char of a piece string, as a color when there is one
(`"ee"[0] = "e"` matches neither color, modelled by `none`). -/
def colorOf : Piece → Option Color
  | Piece.ee => none
  | Piece.mk c _ => some c

/-- Second char of a piece string, as a kind when there is one. -/
def kindOf : Piece → Option Kind
  | Piece.ee => none
  | Piece.mk _ knd => some knd

/-- A square coordinate: the source's two-char strings `"a1"`…`"h8"`,
as integer file (0–7 for `"a"`–`"h"`) and rank (0–7 for `"1"`–`"8"`),
exactly the integers `fileFromSquare`/`rankFromSquare` produce. -/
structure Sq where
  file : Int
  rank : Int
deriving DecidableEq, Repr

/-- The 8×8 `position` array: first index file, second rank. -/
abbrev Position := Fin 8 → Fin 8 → Piece

/-- Interpret an integer as an array index when it is within 0–7. -/
def idxOf (i : Int) : Option (Fin 8) :=
  if h : 0 ≤ i ∧ i < 8 then some ⟨i.toNat, by omega⟩ else none

/-- Read `position[f][r]`; out-of-range reads yield `Piece.ee`
(the JavaScript would yield `undefined`; see `getPawnMovesChecked` for the
faithful crashing model of the one code path that can read out of range). -/
def getp (pos : Position) (f r : Int) : Piece :=
  match idxOf f, idxOf r with
  | some a, some b => pos a b
  | _, _ => Piece.ee

/-- Write `position[f][r] = pc`; out-of-range writes are dropped
(no in-range write in the source ever goes out of range). -/
def setp (pos : Position) (f r : Int) (pc : Piece) : Position :=
  match idxOf f, idxOf r with
  | some a, some b => fun x y => if x = a ∧ y = b then pc else pos x y
  | _, _ => pos

/-- The aggregate game state: the instance variables of `BoardState`. -/
structure BoardState where
  position : Position
  activeColor : Color
  blackCastleKingsideAvailable : Bool
  blackCastleQueensideAvailable : Bool
  whiteCastleKingsideAvailable : Bool
  whiteCastleQueensideAvailable : Bool
  twoSquarePawnMove : Option Sq
  numberOfHalfMoves : Nat
  numberOfFullMoves : Nat
  blackKingSquare : Sq
  whiteKingSquare : Sq
deriving DecidableEq

/-- The initial `position` literal of the source, file-major. -/
def initialFiles : List (List Piece) :=
  [ [Piece.mk Color.w Kind.r, Piece.mk Color.w Kind.p, Piece.ee, Piece.ee,
     Piece.ee, Piece.ee, Piece.mk Color.b Kind.p, Piece.mk Color.b Kind.r],
    [Piece.mk Color.w Kind.n, Piece.mk Color.w Kind.p, Piece.ee, Piece.ee,
     Piece.ee, Piece.ee, Piece.mk Color.b Kind.p, Piece.mk Color.b Kind.n],
    [Piece.mk Color.w Kind.b, Piece.mk Color.w Kind.p, Piece.ee, Piece.ee,
     Piece.ee, Piece.ee, Piece.mk Color.b Kind.p, Piece.mk Color.b Kind.b],
    [Piece.mk Color.w Kind.q, Piece.mk Color.w Kind.p, Piece.ee, Piece.ee,
     Piece.ee, Piece.ee, Piece.mk Color.b Kind.p, Piece.mk Color.b Kind.q],
    [Piece.mk Color.w Kind.k, Piece.mk Color.w Kind.p, Piece.ee, Piece.ee,
     Piece.ee, Piece.ee, Piece.mk Color.b Kind.p, Piece.mk Color.b Kind.k],
    [Piece.mk Color.w Kind.b, Piece.mk Color.w Kind.p, Piece.ee, Piece.ee,
     Piece.ee, Piece.ee, Piece.mk Color.b Kind.p, Piece.mk Color.b Kind.b],
    [Piece.mk Color.w Kind.n, Piece.mk Color.w Kind.p, Piece.ee, Piece.ee,
     Piece.ee, Piece.ee, Piece.mk Color.b Kind.p, Piece.mk Color.b Kind.n],
    [Piece.mk Color.w Kind.r, Piece.mk Color.w Kind.p, Piece.ee, Piece.ee,
     Piece.ee, Piece.ee, Piece.mk Color.b Kind.p, Piece.mk Color.b Kind.r] ]

/-- The initial position, as a `Position`. -/
def initialPosition : Position := fun f r =>
  (initialFiles.getD f.val []).getD r.val Piece.ee

/-- A fresh `BoardState()`: all instance-variable initializers. -/
def initialState : BoardState :=
  { position := initialPosition
    activeColor := Color.w
    blackCastleKingsideAvailable := true
    blackCastleQueensideAvailable := true
    whiteCastleKingsideAvailable := true
    whiteCastleQueensideAvailable := true
    twoSquarePawnMove := none
    numberOfHalfMoves := 0
    numberOfFullMoves := 0
    blackKingSquare := ⟨4, 7⟩
    whiteKingSquare := ⟨4, 0⟩ }

/-- `getPawnPseudoLegalMoves`: normal, double, attacking and en-passant
pawn moves, in the source's push order. -/
def getPawnPseudoLegalMoves (s : BoardState) (square : Sq) : List Sq :=
  let file := square.file
  let rank := square.rank
  let piece := getp s.position file rank
  if piece = Piece.ee then []
  else if colorOf piece = some Color.w then
    (if rank = 1 ∧ getp s.position file (rank + 1) = Piece.ee ∧
        getp s.position file (rank + 2) = Piece.ee then
      [⟨file, rank + 2⟩] else [])
    ++ (if rank < 7 ∧ getp s.position file (rank + 1) = Piece.ee then
      [⟨file, rank + 1⟩] else [])
    ++ (if rank = 4 ∧ file > 0 ∧
           s.twoSquarePawnMove = some ⟨file - 1, rank⟩ then
      [⟨file - 1, rank + 1⟩] else [])
    ++ (if rank = 4 ∧ file < 7 ∧
           s.twoSquarePawnMove = some ⟨file + 1, rank⟩ then
      [⟨file + 1, rank + 1⟩] else [])
    ++ (if file > 0 ∧ getp s.position (file - 1) (rank + 1) ≠ Piece.ee ∧
           colorOf (getp s.position (file - 1) (rank + 1)) ≠ colorOf piece then
      [⟨file - 1, rank + 1⟩] else [])
    ++ (if file < 7 ∧ getp s.position (file + 1) (rank + 1) ≠ Piece.ee ∧
           colorOf (getp s.position (file + 1) (rank + 1)) ≠ colorOf piece then
      [⟨file + 1, rank + 1⟩] else [])
  else
    (if rank = 6 ∧ getp s.position file (rank - 1) = Piece.ee ∧
        getp s.position file (rank - 2) = Piece.ee then
      [⟨file, rank - 2⟩] else [])
    ++ (if rank > 0 ∧ getp s.position file (rank - 1) = Piece.ee then
      [⟨file, rank - 1⟩] else [])
    ++ (if rank = 3 ∧ file > 0 ∧
           s.twoSquarePawnMove = some ⟨file - 1, rank⟩ then
      [⟨file - 1, rank - 1⟩] else [])
    ++ (if rank = 3 ∧ file < 7 ∧
           s.twoSquarePawnMove = some ⟨file + 1, rank⟩ then
      [⟨file + 1, rank - 1⟩] else [])
    ++ (if file > 0 ∧ getp s.position (file - 1) (rank - 1) ≠ Piece.ee ∧
           colorOf (getp s.position (file - 1) (rank - 1)) ≠ colorOf piece then
      [⟨file - 1, rank - 1⟩] else [])
    ++ (if file < 7 ∧ getp s.position (file + 1) (rank - 1) ≠ Piece.ee ∧
           colorOf (getp s.position (file + 1) (rank - 1)) ≠ colorOf piece then
      [⟨file + 1, rank - 1⟩] else [])

/-- One sliding ray of the rook/bishop scans: walk from `(f, r)` in
direction `(df, dr)` while on the board; stop before a friendly piece,
include and stop on any other occupied square.  The fuel bounds the walk
(8 always suffices on an 8×8 board). -/
def rayWalk (pos : Position) (mover : Option Color) :
    Nat → Int → Int → Int → Int → List Sq
  | 0, _, _, _, _ => []
  | fuel + 1, f, r, df, dr =>
    if 0 ≤ f ∧ f < 8 ∧ 0 ≤ r ∧ r < 8 then
      if colorOf (getp pos f r) = mover then []
      else
        ⟨f, r⟩ ::
          (if getp pos f r ≠ Piece.ee then []
           else rayWalk pos mover fuel (f + df) (r + dr) df dr)
    else []

/-- `getRookPseudoLegalMoves`: the four orthogonal rays, in source order
(right, left, up, down). -/
def getRookPseudoLegalMoves (s : BoardState) (square : Sq) : List Sq :=
  let piece := getp s.position square.file square.rank
  if piece = Piece.ee then []
  else
    rayWalk s.position (colorOf piece) 8 (square.file + 1) square.rank 1 0
    ++ rayWalk s.position (colorOf piece) 8 (square.file - 1) square.rank (-1) 0
    ++ rayWalk s.position (colorOf piece) 8 square.file (square.rank + 1) 0 1
    ++ rayWalk s.position (colorOf piece) 8 square.file (square.rank - 1) 0 (-1)

/-- `getBishopPseudoLegalMoves`: the four diagonal rays, in source order
(up-right, down-right, down-left, up-left). -/
def getBishopPseudoLegalMoves (s : BoardState) (square : Sq) : List Sq :=
  let piece := getp s.position square.file square.rank
  if piece = Piece.ee then []
  else
    rayWalk s.position (colorOf piece) 8 (square.file + 1) (square.rank + 1) 1 1
    ++ rayWalk s.position (colorOf piece) 8 (square.file + 1) (square.rank - 1) 1 (-1)
    ++ rayWalk s.position (colorOf piece) 8 (square.file - 1) (square.rank - 1) (-1) (-1)
    ++ rayWalk s.position (colorOf piece) 8 (square.file - 1) (square.rank + 1) (-1) 1

/-- `getKnightPseudoLegalMoves`: the eight offsets, in source order. -/
def getKnightPseudoLegalMoves (s : BoardState) (square : Sq) : List Sq :=
  let file := square.file
  let rank := square.rank
  let piece := getp s.position file rank
  if piece = Piece.ee then []
  else
    (if file > 0 ∧ rank < 6 ∧
        colorOf (getp s.position (file - 1) (rank + 2)) ≠ colorOf piece then
      [⟨file - 1, rank + 2⟩] else [])
    ++ (if file < 7 ∧ rank < 6 ∧
           colorOf (getp s.position (file + 1) (rank + 2)) ≠ colorOf piece then
      [⟨file + 1, rank + 2⟩] else [])
    ++ (if file > 0 ∧ rank > 1 ∧
           colorOf (getp s.position (file - 1) (rank - 2)) ≠ colorOf piece then
      [⟨file - 1, rank - 2⟩] else [])
    ++ (if file < 7 ∧ rank > 1 ∧
           colorOf (getp s.position (file + 1) (rank - 2)) ≠ colorOf piece then
      [⟨file + 1, rank - 2⟩] else [])
    ++ (if file > 1 ∧ rank < 7 ∧
           colorOf (getp s.position (file - 2) (rank + 1)) ≠ colorOf piece then
      [⟨file - 2, rank + 1⟩] else [])
    ++ (if file < 6 ∧ rank < 7 ∧
           colorOf (getp s.position (file + 2) (rank + 1)) ≠ colorOf piece then
      [⟨file + 2, rank + 1⟩] else [])
    ++ (if file > 1 ∧ rank > 0 ∧
           colorOf (getp s.position (file - 2) (rank - 1)) ≠ colorOf piece then
      [⟨file - 2, rank - 1⟩] else [])
    ++ (if file < 6 ∧ rank > 0 ∧
           colorOf (getp s.position (file + 2) (rank - 1)) ≠ colorOf piece then
      [⟨file + 2, rank - 1⟩] else [])

/-- `getQueenPseudoLegalMoves`: rook moves concatenated with bishop moves. -/
def getQueenPseudoLegalMoves (s : BoardState) (square : Sq) : List Sq :=
  getRookPseudoLegalMoves s square ++ getBishopPseudoLegalMoves s square

/-- The `(i, j)` pairs of the source's nested king-move loops, in their
iteration order, with `(0, 0)` skipped. -/
def kingOffsets : List (Int × Int) :=
  [(-1, -1), (-1, 0), (-1, 1), (0, -1), (0, 1), (1, -1), (1, 0), (1, 1)]

/-- `getKingPseudoLegalMoves`: the eight adjacent squares (destination
`(file - i, rank - j)`) plus the unconditional castle offers. -/
def getKingPseudoLegalMoves (s : BoardState) (square : Sq) : List Sq :=
  let file := square.file
  let rank := square.rank
  let piece := getp s.position file rank
  if piece = Piece.ee then []
  else
    (kingOffsets.filterMap fun ij =>
      let f := file - ij.1
      let r := rank - ij.2
      if 0 ≤ f ∧ f < 8 ∧ 0 ≤ r ∧ r < 8 ∧
          colorOf (getp s.position f r) ≠ colorOf piece then
        some ⟨f, r⟩
      else none)
    ++ (if colorOf piece = some Color.w ∧ s.whiteCastleQueensideAvailable ∧
           getp s.position 1 0 = Piece.ee ∧ getp s.position 2 0 = Piece.ee ∧
           getp s.position 3 0 = Piece.ee then
      [⟨2, 0⟩] else [])
    ++ (if colorOf piece = some Color.w ∧ s.whiteCastleKingsideAvailable ∧
           getp s.position 5 0 = Piece.ee ∧ getp s.position 6 0 = Piece.ee then
      [⟨6, 0⟩] else [])
    ++ (if colorOf piece = some Color.b ∧ s.blackCastleQueensideAvailable ∧
           getp s.position 1 7 = Piece.ee ∧ getp s.position 2 7 = Piece.ee ∧
           getp s.position 3 7 = Piece.ee then
      [⟨2, 7⟩] else [])
    ++ (if colorOf piece = some Color.b ∧ s.blackCastleKingsideAvailable ∧
           getp s.position 5 7 = Piece.ee ∧ getp s.position 6 7 = Piece.ee then
      [⟨6, 7⟩] else [])

/-- `getPseudoLegalMoves`: dispatch on `piece[1]`; empty square gives `[]`. -/
def getPseudoLegalMoves (s : BoardState) (square : Sq) : List Sq :=
  match getp s.position square.file square.rank with
  | Piece.ee => []
  | Piece.mk _ Kind.p => getPawnPseudoLegalMoves s square
  | Piece.mk _ Kind.r => getRookPseudoLegalMoves s square
  | Piece.mk _ Kind.n => getKnightPseudoLegalMoves s square
  | Piece.mk _ Kind.b => getBishopPseudoLegalMoves s square
  | Piece.mk _ Kind.q => getQueenPseudoLegalMoves s square
  | Piece.mk _ Kind.k => getKingPseudoLegalMoves s square

/-- `moveIsPseudoLegal`: `getPseudoLegalMoves(fromSquare).includes(toSquare)`. -/
def moveIsPseudoLegal (s : BoardState) (fromSq toSq : Sq) : Bool :=
  decide (toSq ∈ getPseudoLegalMoves s fromSq)

/-- Toggle `activeColor`. -/
def toggle : Color → Color
  | Color.w => Color.b
  | Color.b => Color.w

/-- The "move pieces" block of `playPseudoLegalMove`: relocate the mover,
then the unconditional en-passant deletion for any file-changing pawn move,
then the rook relocation for any king move landing on the c- or g-file,
in source order. -/
def movedPosition (s : BoardState) (fromSq toSq : Sq) : Position :=
  let fromPiece := getp s.position fromSq.file fromSq.rank
  let p1 := setp s.position toSq.file toSq.rank fromPiece
  let p2 := setp p1 fromSq.file fromSq.rank Piece.ee
  let p3 := if kindOf fromPiece = some Kind.p ∧ fromSq.file ≠ toSq.file then
      setp p2 toSq.file fromSq.rank Piece.ee
    else p2
  let p4 := if kindOf fromPiece = some Kind.k ∧ toSq.file = 2 then
      setp (setp p3 3 toSq.rank (getp p3 0 toSq.rank)) 0 toSq.rank Piece.ee
    else p3
  if kindOf fromPiece = some Kind.k ∧ toSq.file = 6 then
    setp (setp p4 5 toSq.rank (getp p4 7 toSq.rank)) 7 toSq.rank Piece.ee
  else p4

/-- The committed state change of `playPseudoLegalMove` on an accepted move:
everything after the pseudo-legality guard, in source order (all reads of
the old position happen before any write, as in the source, where
`fromPiece`/`toPiece` are read first). -/
def applyMove (s : BoardState) (fromSq toSq : Sq) : BoardState where
  position := movedPosition s fromSq toSq
  activeColor := toggle s.activeColor
  whiteCastleQueensideAvailable :=
    if fromSq = (⟨0, 0⟩ : Sq) ∨ toSq = (⟨0, 0⟩ : Sq) ∨
        fromSq = (⟨4, 0⟩ : Sq) ∨ toSq = (⟨4, 0⟩ : Sq) then false
    else s.whiteCastleQueensideAvailable
  whiteCastleKingsideAvailable :=
    if fromSq = (⟨7, 0⟩ : Sq) ∨ toSq = (⟨7, 0⟩ : Sq) ∨
        fromSq = (⟨4, 0⟩ : Sq) ∨ toSq = (⟨4, 0⟩ : Sq) then false
    else s.whiteCastleKingsideAvailable
  blackCastleQueensideAvailable :=
    if fromSq = (⟨0, 7⟩ : Sq) ∨ toSq = (⟨0, 7⟩ : Sq) ∨
        fromSq = (⟨4, 7⟩ : Sq) ∨ toSq = (⟨4, 7⟩ : Sq) then false
    else s.blackCastleQueensideAvailable
  blackCastleKingsideAvailable :=
    if fromSq = (⟨7, 7⟩ : Sq) ∨ toSq = (⟨7, 7⟩ : Sq) ∨
        fromSq = (⟨4, 7⟩ : Sq) ∨ toSq = (⟨4, 7⟩ : Sq) then false
    else s.blackCastleKingsideAvailable
  twoSquarePawnMove :=
    if kindOf (getp s.position fromSq.file fromSq.rank) = some Kind.p ∧
        (fromSq.rank - toSq.rank).natAbs > 1 then some toSq
    else none
  numberOfFullMoves := s.numberOfFullMoves + 1
  numberOfHalfMoves :=
    if (getp s.position toSq.file toSq.rank ≠ Piece.ee ∧
          colorOf (getp s.position fromSq.file fromSq.rank) ≠
            colorOf (getp s.position toSq.file toSq.rank)) ∨
        kindOf (getp s.position fromSq.file fromSq.rank) = some Kind.p then 0
    else s.numberOfHalfMoves + 1
  whiteKingSquare :=
    if getp s.position fromSq.file fromSq.rank = Piece.mk Color.w Kind.k
    then toSq else s.whiteKingSquare
  blackKingSquare :=
    if getp s.position fromSq.file fromSq.rank = Piece.mk Color.b Kind.k
    then toSq else s.blackKingSquare

/-- `playPseudoLegalMove`: reject (and leave the state untouched) unless the
move is pseudo legal, else commit `applyMove`. -/
def playPseudoLegalMove (s : BoardState) (fromSq toSq : Sq) : BoardState :=
  if moveIsPseudoLegal s fromSq toSq then applyMove s fromSq toSq else s

/-- The source's file-major, rank-inner scan order over all 64 squares. -/
def allSquares : List Sq :=
  (List.range 8).flatMap fun f =>
    (List.range 8).map fun r => ⟨(f : Int), (r : Int)⟩

/-- `kingIsInCheck`: scan every square; any opposing piece whose pseudo-legal
moves hit the cached king square gives check. -/
def kingIsInCheck (s : BoardState) (color : Color) : Bool :=
  let kingSquare := if color = Color.w then s.whiteKingSquare
    else s.blackKingSquare
  allSquares.any fun sq =>
    let piece := getp s.position sq.file sq.rank
    if colorOf piece = some color ∨ piece = Piece.ee then false
    else decide (kingSquare ∈ getPseudoLegalMoves s sq)

/-- `kingWouldBeInCheck`: play the hypothetical move on a copy and test the
copy (value semantics makes the copy implicit). -/
def kingWouldBeInCheck (s : BoardState) (color : Color) (fromSq toSq : Sq) :
    Bool :=
  kingIsInCheck (playPseudoLegalMove s fromSq toSq) color

/-- `getLegalMoves`: pseudo-legal moves that do not leave the active color's
own king in check. -/
def getLegalMoves (s : BoardState) (square : Sq) : List Sq :=
  (getPseudoLegalMoves s square).filter fun toSq =>
    !kingWouldBeInCheck s s.activeColor square toSq

/-- `moveIsLegal`: `getLegalMoves(fromSquare).includes(toSquare)`. -/
def moveIsLegal (s : BoardState) (fromSq toSq : Sq) : Bool :=
  decide (toSq ∈ getLegalMoves s fromSq)

/-- `playLegalMove`: reject unless legal, else play as a pseudo-legal move. -/
def playLegalMove (s : BoardState) (fromSq toSq : Sq) : BoardState :=
  if moveIsLegal s fromSq toSq then playPseudoLegalMove s fromSq toSq else s

/-- `playerHasLegalMoves`: some square of the color has a non-empty legal
move set. -/
def playerHasLegalMoves (s : BoardState) (color : Color) : Bool :=
  allSquares.any fun sq =>
    decide (colorOf (getp s.position sq.file sq.rank) = some color) &&
      !(getLegalMoves s sq).isEmpty

/-- `isCheckmate`: no legal moves and in check. -/
def isCheckmate (s : BoardState) : Bool :=
  !playerHasLegalMoves s s.activeColor && kingIsInCheck s s.activeColor

/-- `isStalemate`: no legal moves and not in check. -/
def isStalemate (s : BoardState) : Bool :=
  !playerHasLegalMoves s s.activeColor && !kingIsInCheck s s.activeColor

/-- `squareFromFileRank` rendered back to a two-char string. -/
def squareString (sq : Sq) : String :=
  String.mk [Char.ofNat (97 + sq.file.toNat), Char.ofNat (49 + sq.rank.toNat)]

/-- FEN letter of a non-empty piece. -/
def fenPieceLetter : Piece → String
  | Piece.mk Color.w Kind.p => "P"
  | Piece.mk Color.w Kind.r => "R"
  | Piece.mk Color.w Kind.n => "N"
  | Piece.mk Color.w Kind.b => "B"
  | Piece.mk Color.w Kind.q => "Q"
  | Piece.mk Color.w Kind.k => "K"
  | Piece.mk Color.b Kind.p => "p"
  | Piece.mk Color.b Kind.r => "r"
  | Piece.mk Color.b Kind.n => "n"
  | Piece.mk Color.b Kind.b => "b"
  | Piece.mk Color.b Kind.q => "q"
  | Piece.mk Color.b Kind.k => "k"
  | Piece.ee => ""

/-- One rank of `getFENPieces`: files 0–7 with run-length-encoded gaps. -/
def fenRankString (s : BoardState) (rank : Int) : String :=
  let res := (List.range 8).foldl
    (fun (acc : String × Nat) fl =>
      let piece := getp s.position (fl : Int) rank
      if piece = Piece.ee then (acc.1, acc.2 + 1)
      else
        ((if acc.2 > 0 then acc.1 ++ toString acc.2 else acc.1)
           ++ fenPieceLetter piece, 0))
    ("", 0)
  if res.2 > 0 then res.1 ++ toString res.2 else res.1

/-- `getFENPieces`: ranks 8 down to 1, `/`-separated. -/
def getFENPieces (s : BoardState) : String :=
  fenRankString s 7 ++ "/" ++ fenRankString s 6 ++ "/" ++ fenRankString s 5
    ++ "/" ++ fenRankString s 4 ++ "/" ++ fenRankString s 3 ++ "/"
    ++ fenRankString s 2 ++ "/" ++ fenRankString s 1 ++ "/" ++ fenRankString s 0

/-- `getFENCastling`: `K Q k q` in that order, `-` when none. -/
def getFENCastling (s : BoardState) : String :=
  let res := (if s.whiteCastleKingsideAvailable then "K" else "")
    ++ (if s.whiteCastleQueensideAvailable then "Q" else "")
    ++ (if s.blackCastleKingsideAvailable then "k" else "")
    ++ (if s.blackCastleQueensideAvailable then "q" else "")
  if res = "" then "-" else res

/-- `getFEN`: the six space-separated fields. -/
def getFEN (s : BoardState) : String :=
  getFENPieces s ++ " "
    ++ (match s.activeColor with | Color.w => "w" | Color.b => "b") ++ " "
    ++ getFENCastling s ++ " "
    ++ (match s.twoSquarePawnMove with
        | none => "-"
        | some sq => squareString sq) ++ " "
    ++ toString s.numberOfHalfMoves ++ " " ++ toString s.numberOfFullMoves

/-- States reachable from the fresh state through the two public
move-execution operations (rejected calls included; they are no-ops). -/
inductive Reachable : BoardState → Prop
  | init : Reachable initialState
  | stepPseudo (s : BoardState) (fromSq toSq : Sq) :
      Reachable s → Reachable (playPseudoLegalMove s fromSq toSq)
  | stepLegal (s : BoardState) (fromSq toSq : Sq) :
      Reachable s → Reachable (playLegalMove s fromSq toSq)

/-- One move-execution call; the flag selects the legal (`true`) or
pseudo-legal (`false`) entry point. -/
def playStep (s : BoardState) (m : Bool × Sq × Sq) : BoardState :=
  if m.1 then playLegalMove s m.2.1 m.2.2
  else playPseudoLegalMove s m.2.1 m.2.2

/-- Run a list of move-execution calls from a state. -/
def playMoves (s : BoardState) : List (Bool × Sq × Sq) → BoardState
  | [] => s
  | m :: ms => playMoves (playStep s m) ms

/-! ## Basic lemmas about the embedding -/

lemma sq_ne_iff (a b : Sq) : a ≠ b ↔ a.file ≠ b.file ∨ a.rank ≠ b.rank := by
  cases a
  cases b
  simp only [ne_eq, Sq.mk.injEq, not_and_or]

lemma getp_out_of_range (pos : Position) (f r : Int)
    (h : ¬(0 ≤ f ∧ f < 8 ∧ 0 ≤ r ∧ r < 8)) : getp pos f r = Piece.ee := by
  unfold getp idxOf
  by_cases hf : 0 ≤ f ∧ f < 8
  · have hr : ¬(0 ≤ r ∧ r < 8) := by tauto
    rw [dif_pos hf, dif_neg hr]
  · rw [dif_neg hf]

lemma getp_ne_ee_range (pos : Position) (f r : Int)
    (h : getp pos f r ≠ Piece.ee) : 0 ≤ f ∧ f < 8 ∧ 0 ≤ r ∧ r < 8 := by
  by_contra hc
  exact h (getp_out_of_range pos f r hc)

lemma getp_setp_same (pos : Position) (f r : Int) (pc : Piece)
    (h : 0 ≤ f ∧ f < 8 ∧ 0 ≤ r ∧ r < 8) :
    getp (setp pos f r pc) f r = pc := by
  unfold getp setp idxOf
  rw [dif_pos ⟨h.1, h.2.1⟩, dif_pos ⟨h.2.2.1, h.2.2.2⟩]
  simp

lemma getp_setp_ne (pos : Position) (f r f' r' : Int) (pc : Piece)
    (h : f ≠ f' ∨ r ≠ r') :
    getp (setp pos f r pc) f' r' = getp pos f' r' := by
  unfold getp setp idxOf
  by_cases hf : 0 ≤ f ∧ f < 8
  · by_cases hr : 0 ≤ r ∧ r < 8
    · rw [dif_pos hf, dif_pos hr]
      by_cases hf' : 0 ≤ f' ∧ f' < 8
      · by_cases hr' : 0 ≤ r' ∧ r' < 8
        · rw [dif_pos hf', dif_pos hr']
          simp only
          rw [if_neg]
          rintro ⟨h1, h2⟩
          have e1 : f'.toNat = f.toNat := congrArg Fin.val h1
          have e2 : r'.toNat = r.toNat := congrArg Fin.val h2
          rcases h with h | h
          · exact h (by omega)
          · exact h (by omega)
        · rw [dif_pos hf', dif_neg hr']
      · rw [dif_neg hf']
    · rw [dif_pos hf, dif_neg hr]
  · rw [dif_neg hf]

lemma pseudo_ee (s : BoardState) (sq : Sq)
    (h : getp s.position sq.file sq.rank = Piece.ee) :
    getPseudoLegalMoves s sq = [] := by
  unfold getPseudoLegalMoves
  rw [h]

lemma legal_subset_pseudo (s : BoardState) (fromSq toSq : Sq)
    (h : toSq ∈ getLegalMoves s fromSq) :
    toSq ∈ getPseudoLegalMoves s fromSq :=
  (List.mem_filter.mp h).1

lemma playPseudo_of_mem (s : BoardState) (fromSq toSq : Sq)
    (h : toSq ∈ getPseudoLegalMoves s fromSq) :
    playPseudoLegalMove s fromSq toSq = applyMove s fromSq toSq := by
  unfold playPseudoLegalMove moveIsPseudoLegal
  simp [h]

lemma playPseudo_of_not_mem (s : BoardState) (fromSq toSq : Sq)
    (h : toSq ∉ getPseudoLegalMoves s fromSq) :
    playPseudoLegalMove s fromSq toSq = s := by
  unfold playPseudoLegalMove moveIsPseudoLegal
  simp [h]

lemma playLegal_of_mem (s : BoardState) (fromSq toSq : Sq)
    (h : toSq ∈ getLegalMoves s fromSq) :
    playLegalMove s fromSq toSq = applyMove s fromSq toSq := by
  unfold playLegalMove moveIsLegal
  rw [if_pos (by simpa using h)]
  exact playPseudo_of_mem s fromSq toSq (legal_subset_pseudo s fromSq toSq h)

lemma playLegal_of_not_mem (s : BoardState) (fromSq toSq : Sq)
    (h : toSq ∉ getLegalMoves s fromSq) :
    playLegalMove s fromSq toSq = s := by
  unfold playLegalMove moveIsLegal
  simp [h]

lemma applyMove_ne (s : BoardState) (fromSq toSq : Sq) :
    applyMove s fromSq toSq ≠ s := by
  intro h
  have := congrArg BoardState.numberOfFullMoves h
  simp only [applyMove] at this
  omega

/-! ## Named states used by the concrete scenarios -/

/-- The position after the legal moves f2–f3, e7–e5, g2–g4, d8–h4
(Fool's Mate). -/
def foolsMateState : BoardState :=
  playLegalMove
    (playLegalMove
      (playLegalMove (playLegalMove initialState ⟨5, 1⟩ ⟨5, 2⟩) ⟨4, 6⟩ ⟨4, 4⟩)
      ⟨6, 1⟩ ⟨6, 3⟩)
    ⟨3, 7⟩ ⟨7, 3⟩

/-- The position after the legal moves e2–e4, d7–d5, d2–d4: White pawns on
e4 and d4, Black pawn on d5, the capture e4×d5 available. -/
def beforeCaptureState : BoardState :=
  playLegalMove
    (playLegalMove (playLegalMove initialState ⟨4, 1⟩ ⟨4, 3⟩) ⟨3, 6⟩ ⟨3, 4⟩)
    ⟨3, 1⟩ ⟨3, 3⟩

/-! ## C10 -/

/-- C10: a fresh `BoardState` serializes to the standard initial-position
FEN: placement `rnbqkbnr/pppppppp/8/8/8/8/PPPPPPPP/RNBQKBNR`, active color
`w`, castling `KQkq`, en-passant `-`, then the two move counters (both 0
here), all six fields space-separated in that order. -/
theorem c10_initial_state_fen :
    getFEN initialState =
      "rnbqkbnr/pppppppp/8/8/8/8/PPPPPPPP/RNBQKBNR w KQkq - 0 0" := by
  decide

/-! ## C7 -/

/-- C7: after the legal moves f2–f3, e7–e5, g2–g4, d8–h4, the engine
reports checkmate, not stalemate, with White (`w`) the active color. -/
theorem c7_fools_mate :
    isCheckmate foolsMateState = true ∧ isStalemate foolsMateState = false ∧
      foolsMateState.activeColor = Color.w := by
  refine ⟨by decide, by decide, by decide⟩

/-! ## C1 -/

/-- C1 (the code contradicts the claim): from the reachable position after
e2–e4, d7–d5, d2–d4, the ordinary pawn capture e4×d5 lands on an occupied
destination, yet move execution still clears the extra square d4 — the
"en-passant deletion" `setPieceOnSquare(toSquare[0] + fromSquare[1], "ee")`
runs for every file-changing pawn move, deleting White's own d4 pawn here. -/
theorem c1_ordinary_capture_clears_extra_square :
    getp beforeCaptureState.position 3 3 = Piece.mk Color.w Kind.p ∧
    getp beforeCaptureState.position 3 4 = Piece.mk Color.b Kind.p ∧
    moveIsLegal beforeCaptureState ⟨4, 3⟩ ⟨3, 4⟩ = true ∧
    getp (playLegalMove beforeCaptureState ⟨4, 3⟩ ⟨3, 4⟩).position 3 3 =
      Piece.ee := by
  refine ⟨by decide, by decide, by decide, by decide⟩

/-! ## C6 -/

/-- C6: calling either move-execution entry point with a destination that is
not in the relevant move set of the source square leaves the `BoardState`
completely unchanged (every field identical). -/
theorem c6_rejected_move_is_noop (s : BoardState) (fromSq toSq : Sq) :
    (toSq ∉ getLegalMoves s fromSq → playLegalMove s fromSq toSq = s) ∧
    (toSq ∉ getPseudoLegalMoves s fromSq →
      playPseudoLegalMove s fromSq toSq = s) :=
  ⟨playLegal_of_not_mem s fromSq toSq, playPseudo_of_not_mem s fromSq toSq⟩

/-- Witness for C6: from the initial state, e2–e5 is in neither move set of
e2, and both execution calls return the state unchanged. -/
theorem c6_rejected_move_is_noop_witness :
    playLegalMove initialState ⟨4, 1⟩ ⟨4, 4⟩ = initialState ∧
    playPseudoLegalMove initialState ⟨4, 1⟩ ⟨4, 4⟩ = initialState :=
  ⟨(c6_rejected_move_is_noop initialState ⟨4, 1⟩ ⟨4, 4⟩).1 (by decide),
   (c6_rejected_move_is_noop initialState ⟨4, 1⟩ ⟨4, 4⟩).2 (by decide)⟩

/-! ## C4 -/

/-- C4: execution succeeds (mutates the state) exactly when the destination
is in the relevant move set of the source square — membership is the only
test, the mover's color is never compared with the active color.  In
particular, from the initial position with White to move, e7–e6 (Black's
pawn!) is accepted by legal execution, moves the black pawn, and hands the
turn to Black. -/
theorem c4_no_turn_enforcement :
    (∀ (s : BoardState) (fromSq toSq : Sq),
      playLegalMove s fromSq toSq ≠ s ↔ toSq ∈ getLegalMoves s fromSq) ∧
    (∀ (s : BoardState) (fromSq toSq : Sq),
      playPseudoLegalMove s fromSq toSq ≠ s ↔
        toSq ∈ getPseudoLegalMoves s fromSq) ∧
    (initialState.activeColor = Color.w ∧
     colorOf (getp initialState.position 4 6) = some Color.b ∧
     moveIsLegal initialState ⟨4, 6⟩ ⟨4, 5⟩ = true ∧
     (playLegalMove initialState ⟨4, 6⟩ ⟨4, 5⟩).activeColor = Color.b ∧
     getp (playLegalMove initialState ⟨4, 6⟩ ⟨4, 5⟩).position 4 5 =
       Piece.mk Color.b Kind.p ∧
     getp (playLegalMove initialState ⟨4, 6⟩ ⟨4, 5⟩).position 4 6 =
       Piece.ee) := by
  refine ⟨fun s fromSq toSq => ?_, fun s fromSq toSq => ?_,
    by decide, by decide, by decide, by decide, by decide, by decide⟩
  · constructor
    · intro hne
      by_contra hmem
      exact hne (playLegal_of_not_mem s fromSq toSq hmem)
    · intro hmem
      rw [playLegal_of_mem s fromSq toSq hmem]
      exact applyMove_ne s fromSq toSq
  · constructor
    · intro hne
      by_contra hmem
      exact hne (playPseudo_of_not_mem s fromSq toSq hmem)
    · intro hmem
      rw [playPseudo_of_mem s fromSq toSq hmem]
      exact applyMove_ne s fromSq toSq

/-! ## C9 -/

lemma applyMove_rights_mono (s : BoardState) (fromSq toSq : Sq) :
    ((applyMove s fromSq toSq).whiteCastleKingsideAvailable = false ∨
        s.whiteCastleKingsideAvailable = false →
      (applyMove s fromSq toSq).whiteCastleKingsideAvailable = false) ∧
    ((applyMove s fromSq toSq).whiteCastleQueensideAvailable = false ∨
        s.whiteCastleQueensideAvailable = false →
      (applyMove s fromSq toSq).whiteCastleQueensideAvailable = false) ∧
    ((applyMove s fromSq toSq).blackCastleKingsideAvailable = false ∨
        s.blackCastleKingsideAvailable = false →
      (applyMove s fromSq toSq).blackCastleKingsideAvailable = false) ∧
    ((applyMove s fromSq toSq).blackCastleQueensideAvailable = false ∨
        s.blackCastleQueensideAvailable = false →
      (applyMove s fromSq toSq).blackCastleQueensideAvailable = false) := by
  simp only [applyMove]
  refine ⟨fun h => ?_, fun h => ?_, fun h => ?_, fun h => ?_⟩ <;>
    · split
      · rfl
      · rcases h with h | h
        · split at h
          · exact absurd h (by simp_all)
          · exact h
        · exact h

/-- One executed (or rejected) call of either entry point never turns a
cleared castling right back on. -/
lemma step_rights_mono (s : BoardState) (m : Bool × Sq × Sq) :
    (s.whiteCastleKingsideAvailable = false →
      (playStep s m).whiteCastleKingsideAvailable = false) ∧
    (s.whiteCastleQueensideAvailable = false →
      (playStep s m).whiteCastleQueensideAvailable = false) ∧
    (s.blackCastleKingsideAvailable = false →
      (playStep s m).blackCastleKingsideAvailable = false) ∧
    (s.blackCastleQueensideAvailable = false →
      (playStep s m).blackCastleQueensideAvailable = false) := by
  have key : ∀ fromSq toSq,
      (s.whiteCastleKingsideAvailable = false →
        (playPseudoLegalMove s fromSq toSq).whiteCastleKingsideAvailable =
          false) ∧
      (s.whiteCastleQueensideAvailable = false →
        (playPseudoLegalMove s fromSq toSq).whiteCastleQueensideAvailable =
          false) ∧
      (s.blackCastleKingsideAvailable = false →
        (playPseudoLegalMove s fromSq toSq).blackCastleKingsideAvailable =
          false) ∧
      (s.blackCastleQueensideAvailable = false →
        (playPseudoLegalMove s fromSq toSq).blackCastleQueensideAvailable =
          false) := by
    intro fromSq toSq
    unfold playPseudoLegalMove
    split
    · obtain ⟨h1, h2, h3, h4⟩ := applyMove_rights_mono s fromSq toSq
      exact ⟨fun h => h1 (Or.inr h), fun h => h2 (Or.inr h),
        fun h => h3 (Or.inr h), fun h => h4 (Or.inr h)⟩
    · exact ⟨id, id, id, id⟩
  unfold playStep
  split
  · unfold playLegalMove
    split
    · exact key m.2.1 m.2.2
    · exact ⟨id, id, id, id⟩
  · exact key m.2.1 m.2.2

lemma playMoves_append (s : BoardState) (ms1 ms2 : List (Bool × Sq × Sq)) :
    playMoves s (ms1 ++ ms2) = playMoves (playMoves s ms1) ms2 := by
  induction ms1 generalizing s with
  | nil => rfl
  | cons m ms ih =>
    simp only [List.cons_append, playMoves]
    exact ih _

lemma playMoves_rights_mono (s : BoardState) (ms : List (Bool × Sq × Sq)) :
    ((playMoves s ms).whiteCastleKingsideAvailable = true →
      s.whiteCastleKingsideAvailable = true) ∧
    ((playMoves s ms).whiteCastleQueensideAvailable = true →
      s.whiteCastleQueensideAvailable = true) ∧
    ((playMoves s ms).blackCastleKingsideAvailable = true →
      s.blackCastleKingsideAvailable = true) ∧
    ((playMoves s ms).blackCastleQueensideAvailable = true →
      s.blackCastleQueensideAvailable = true) := by
  induction ms generalizing s with
  | nil => exact ⟨id, id, id, id⟩
  | cons m ms ih =>
    simp only [playMoves]
    obtain ⟨s1, s2, s3, s4⟩ := step_rights_mono s m
    obtain ⟨i1, i2, i3, i4⟩ := ih (playStep s m)
    constructor
    · intro h
      by_contra hc
      have := s1 (by revert hc; cases s.whiteCastleKingsideAvailable <;> simp)
      have := i1 h
      simp_all
    constructor
    · intro h
      by_contra hc
      have := s2 (by revert hc; cases s.whiteCastleQueensideAvailable <;> simp)
      have := i2 h
      simp_all
    constructor
    · intro h
      by_contra hc
      have := s3 (by revert hc; cases s.blackCastleKingsideAvailable <;> simp)
      have := i3 h
      simp_all
    · intro h
      by_contra hc
      have := s4 (by revert hc; cases s.blackCastleQueensideAvailable <;> simp)
      have := i4 h
      simp_all

/-- C9: over any sequence of move-execution calls from the initial state
(each call using either entry point), none of the four castling-rights
booleans ever transitions from `false` back to `true`: a right already
cleared after a prefix stays cleared after any continuation. -/
theorem c9_castling_rights_monotone (ms1 ms2 : List (Bool × Sq × Sq)) :
    ((playMoves initialState ms1).whiteCastleKingsideAvailable = false →
      (playMoves initialState (ms1 ++ ms2)).whiteCastleKingsideAvailable =
        false) ∧
    ((playMoves initialState ms1).whiteCastleQueensideAvailable = false →
      (playMoves initialState (ms1 ++ ms2)).whiteCastleQueensideAvailable =
        false) ∧
    ((playMoves initialState ms1).blackCastleKingsideAvailable = false →
      (playMoves initialState (ms1 ++ ms2)).blackCastleKingsideAvailable =
        false) ∧
    ((playMoves initialState ms1).blackCastleQueensideAvailable = false →
      (playMoves initialState (ms1 ++ ms2)).blackCastleQueensideAvailable =
        false) := by
  rw [playMoves_append]
  obtain ⟨m1, m2, m3, m4⟩ :=
    playMoves_rights_mono (playMoves initialState ms1) ms2
  refine ⟨fun h => ?_, fun h => ?_, fun h => ?_, fun h => ?_⟩ <;>
    · by_contra hc
      simp_all [Bool.not_eq_false]

/-- Witness for C9: Nb1–a3 then Ra1–b1 clears White's queenside right, and
it stays cleared after a further move (e7–e5). -/
theorem c9_castling_rights_monotone_witness :
    (playMoves initialState
        [(false, ⟨1, 0⟩, ⟨0, 2⟩), (false, ⟨0, 0⟩, ⟨1, 0⟩)]
      ).whiteCastleQueensideAvailable = false ∧
    (playMoves initialState
        ([(false, ⟨1, 0⟩, ⟨0, 2⟩), (false, ⟨0, 0⟩, ⟨1, 0⟩)] ++
          [(false, ⟨4, 6⟩, ⟨4, 4⟩)])
      ).whiteCastleQueensideAvailable = false :=
  ⟨by decide,
   (c9_castling_rights_monotone
      [(false, ⟨1, 0⟩, ⟨0, 2⟩), (false, ⟨0, 0⟩, ⟨1, 0⟩)]
      [(false, ⟨4, 6⟩, ⟨4, 4⟩)]).2.1 (by decide)⟩

/-! ## Membership facts about the king generator -/

lemma mem_king_gen (s : BoardState) (fromSq t : Sq)
    (h : t ∈ getKingPseudoLegalMoves s fromSq) :
    (0 ≤ t.file ∧ t.file < 8 ∧ 0 ≤ t.rank ∧ t.rank < 8) ∧ t ≠ fromSq := by
  unfold getKingPseudoLegalMoves at h
  by_cases hp : getp s.position fromSq.file fromSq.rank = Piece.ee
  · rw [if_pos hp] at h
    exact absurd h (List.not_mem_nil t)
  · rw [if_neg hp] at h
    simp only [List.mem_append] at h
    rcases h with (((h | h) | h) | h) | h
    · simp only [List.mem_filterMap] at h
      obtain ⟨ij, hij, heq⟩ := h
      by_cases hcond : 0 ≤ fromSq.file - ij.1 ∧ fromSq.file - ij.1 < 8 ∧
          0 ≤ fromSq.rank - ij.2 ∧ fromSq.rank - ij.2 < 8 ∧
          colorOf (getp s.position (fromSq.file - ij.1) (fromSq.rank - ij.2)) ≠
            colorOf (getp s.position fromSq.file fromSq.rank)
      · rw [if_pos hcond] at heq
        obtain rfl := (Option.some.injEq _ _).mp heq
        have hij0 : ij.1 ≠ 0 ∨ ij.2 ≠ 0 := by
          simp only [kingOffsets, List.mem_cons, List.not_mem_nil,
            or_false] at hij
          rcases hij with rfl | rfl | rfl | rfl | rfl | rfl | rfl | rfl <;>
            simp
        refine ⟨⟨hcond.1, hcond.2.1, hcond.2.2.1, hcond.2.2.2.1⟩, ?_⟩
        rw [sq_ne_iff]
        simp only
        rcases hij0 with h0 | h0
        · exact Or.inl (by omega)
        · exact Or.inr (by omega)
      · rw [if_neg hcond] at heq
        exact absurd heq (by simp)
    · split at h
      · rw [List.mem_singleton] at h
        subst h
        rename_i hcond
        refine ⟨by norm_num, fun he => hp ?_⟩
        rw [← he]
        exact hcond.2.2.2.1
      · exact absurd h (List.not_mem_nil t)
    · split at h
      · rw [List.mem_singleton] at h
        subst h
        rename_i hcond
        refine ⟨by norm_num, fun he => hp ?_⟩
        rw [← he]
        exact hcond.2.2.2
      · exact absurd h (List.not_mem_nil t)
    · split at h
      · rw [List.mem_singleton] at h
        subst h
        rename_i hcond
        refine ⟨by norm_num, fun he => hp ?_⟩
        rw [← he]
        exact hcond.2.2.2.1
      · exact absurd h (List.not_mem_nil t)
    · split at h
      · rw [List.mem_singleton] at h
        subst h
        rename_i hcond
        refine ⟨by norm_num, fun he => hp ?_⟩
        rw [← he]
        exact hcond.2.2.2
      · exact absurd h (List.not_mem_nil t)

/-- A pseudo-legal king move: destination on the board and distinct from
the source. -/
lemma mem_pseudo_king (s : BoardState) (fromSq t : Sq) (c : Color)
    (hp : getp s.position fromSq.file fromSq.rank = Piece.mk c Kind.k)
    (h : t ∈ getPseudoLegalMoves s fromSq) :
    (0 ≤ t.file ∧ t.file < 8 ∧ 0 ≤ t.rank ∧ t.rank < 8) ∧ t ≠ fromSq := by
  unfold getPseudoLegalMoves at h
  rw [hp] at h
  exact mem_king_gen s fromSq t h

/-! ## C2 -/

/-- C2: any accepted king move whose destination is on the c-file makes
move execution copy whatever stands on the a-file square of the
destination's rank onto the d-file square of that rank and empty the a-file
square — the rook-relocation block tests only "king moved to the c-file
(resp. g-file)", never that the move was actually a castle.  Mirrored for a
g-file destination with the h- and f-file squares.  (The hypothesis that the
source square is not itself the copied-from corner square rules out the
degenerate self-overwriting case.) -/
theorem c2_king_to_cg_file_always_moves_rook
    (s : BoardState) (fromSq toSq : Sq) (c : Color)
    (hk : getp s.position fromSq.file fromSq.rank = Piece.mk c Kind.k)
    (hpl : moveIsPseudoLegal s fromSq toSq = true) :
    (toSq.file = 2 → fromSq ≠ (⟨0, toSq.rank⟩ : Sq) →
      getp (playPseudoLegalMove s fromSq toSq).position 0 toSq.rank =
        Piece.ee ∧
      getp (playPseudoLegalMove s fromSq toSq).position 3 toSq.rank =
        getp s.position 0 toSq.rank) ∧
    (toSq.file = 6 → fromSq ≠ (⟨7, toSq.rank⟩ : Sq) →
      getp (playPseudoLegalMove s fromSq toSq).position 7 toSq.rank =
        Piece.ee ∧
      getp (playPseudoLegalMove s fromSq toSq).position 5 toSq.rank =
        getp s.position 7 toSq.rank) := by
  have hmem : toSq ∈ getPseudoLegalMoves s fromSq := by
    simpa [moveIsPseudoLegal] using hpl
  obtain ⟨⟨htf0, htf8, htr0, htr8⟩, -⟩ :=
    mem_pseudo_king s fromSq toSq c hk hmem
  rw [playPseudo_of_mem s fromSq toSq hmem]
  constructor
  · intro hf2 hne
    have hor : fromSq.file ≠ (0 : Int) ∨ fromSq.rank ≠ toSq.rank := by
      rcases (sq_ne_iff fromSq ⟨0, toSq.rank⟩).mp hne with h | h
      · exact Or.inl h
      · exact Or.inr h
    simp only [applyMove, movedPosition, hk, hf2, kindOf]
    norm_num
    constructor
    · rw [getp_setp_same _ 0 toSq.rank Piece.ee
        ⟨by norm_num, by norm_num, htr0, htr8⟩]
    · rw [getp_setp_ne _ 0 toSq.rank 3 toSq.rank _ (Or.inl (by norm_num))]
      rw [getp_setp_same _ 3 toSq.rank _
        ⟨by norm_num, by norm_num, htr0, htr8⟩]
      rw [if_neg (fun hcc => Kind.noConfusion hcc.1)]
      rw [getp_setp_ne _ fromSq.file fromSq.rank 0 toSq.rank _ hor]
      rw [getp_setp_ne _ 2 toSq.rank 0 toSq.rank _ (Or.inl (by norm_num))]
  · intro hf6 hne
    have hor : fromSq.file ≠ (7 : Int) ∨ fromSq.rank ≠ toSq.rank := by
      rcases (sq_ne_iff fromSq ⟨7, toSq.rank⟩).mp hne with h | h
      · exact Or.inl h
      · exact Or.inr h
    simp only [applyMove, movedPosition, hk, hf6, kindOf]
    norm_num
    constructor
    · rw [getp_setp_same _ 7 toSq.rank Piece.ee
        ⟨by norm_num, by norm_num, htr0, htr8⟩]
    · rw [getp_setp_ne _ 7 toSq.rank 5 toSq.rank _ (Or.inl (by norm_num))]
      rw [getp_setp_same _ 5 toSq.rank _
        ⟨by norm_num, by norm_num, htr0, htr8⟩]
      rw [if_neg (fun hcc => Kind.noConfusion hcc.1)]
      rw [getp_setp_ne _ fromSq.file fromSq.rank 7 toSq.rank _ hor]
      rw [getp_setp_ne _ 6 toSq.rank 7 toSq.rank _ (Or.inl (by norm_num))]

/-- A small position for exercising C2: White king on d4, Black rook on a4,
Black king on h8, no castling rights at all. -/
def ordinaryKingMoveState : BoardState :=
  { position :=
      setp (setp (setp (fun _ _ => Piece.ee)
        3 3 (Piece.mk Color.w Kind.k))
        0 3 (Piece.mk Color.b Kind.r))
        7 7 (Piece.mk Color.b Kind.k)
    activeColor := Color.w
    blackCastleKingsideAvailable := false
    blackCastleQueensideAvailable := false
    whiteCastleKingsideAvailable := false
    whiteCastleQueensideAvailable := false
    twoSquarePawnMove := none
    numberOfHalfMoves := 0
    numberOfFullMoves := 0
    blackKingSquare := ⟨7, 7⟩
    whiteKingSquare := ⟨3, 3⟩ }

/-- Witness for C2: the ordinary one-square king move d4–c4 (no castle is
even available) empties a4 and copies the black rook from a4 onto d4. -/
theorem c2_king_to_cg_file_always_moves_rook_witness :
    getp (playPseudoLegalMove ordinaryKingMoveState ⟨3, 3⟩ ⟨2, 3⟩).position
      0 3 = Piece.ee ∧
    getp (playPseudoLegalMove ordinaryKingMoveState ⟨3, 3⟩ ⟨2, 3⟩).position
      3 3 = getp ordinaryKingMoveState.position 0 3 :=
  (c2_king_to_cg_file_always_moves_rook ordinaryKingMoveState ⟨3, 3⟩ ⟨2, 3⟩
    Color.w (by decide) (by decide)).1 (by decide) (by decide)

/-! ## C3 -/

/-- The raw array read `position[f][r]` as JavaScript performs it: `none`
models the `undefined` obtained when either index is outside 0–7. -/
def readp (pos : Position) (f r : Int) : Option Piece :=
  if 0 ≤ f ∧ f < 8 ∧ 0 ≤ r ∧ r < 8 then some (getp pos f r) else none

/-- The comparison `x === "ee"`: comparing `undefined` with a string is
false but does not crash. -/
def isEE : Option Piece → Bool
  | some Piece.ee => true
  | _ => false

/-- The pawn attacking-move condition
`x !== "ee" && x[0] !== piece[0]`: when `x` is `undefined` the first
comparison passes and the character access `x[0]` throws — modelled as
`none`. -/
def attackCond (x : Option Piece) (mover : Piece) : Option Bool :=
  match x with
  | none => none
  | some pc =>
    some (decide (pc ≠ Piece.ee) && decide (colorOf pc ≠ colorOf mover))

/-- `getPawnPseudoLegalMoves`, instrumented to model the source's actual
array accesses: the result is `none` exactly when the JavaScript would
throw a `TypeError` by reading `[0]` of an out-of-range (`undefined`)
position entry — which happens in the attacking-move conditions when the
pawn stands on its last rank (rank index 7 for White, 0 for Black). -/
def getPawnMovesChecked (s : BoardState) (square : Sq) :
    Option (List Sq) :=
  let file := square.file
  let rank := square.rank
  let piece := getp s.position file rank
  if piece = Piece.ee then some []
  else if colorOf piece = some Color.w then do
    let l1 := if rank = 1 ∧ isEE (readp s.position file (rank + 1)) ∧
        isEE (readp s.position file (rank + 2)) then
      [(⟨file, rank + 2⟩ : Sq)] else []
    let l2 := if rank < 7 ∧ isEE (readp s.position file (rank + 1)) then
      [(⟨file, rank + 1⟩ : Sq)] else []
    let l3 := if rank = 4 ∧ file > 0 ∧
        s.twoSquarePawnMove = some ⟨file - 1, rank⟩ then
      [(⟨file - 1, rank + 1⟩ : Sq)] else []
    let l4 := if rank = 4 ∧ file < 7 ∧
        s.twoSquarePawnMove = some ⟨file + 1, rank⟩ then
      [(⟨file + 1, rank + 1⟩ : Sq)] else []
    let c5 ← if file > 0 then attackCond (readp s.position (file - 1) (rank + 1)) piece
      else pure false
    let l5 := if c5 then [(⟨file - 1, rank + 1⟩ : Sq)] else []
    let c6 ← if file < 7 then attackCond (readp s.position (file + 1) (rank + 1)) piece
      else pure false
    let l6 := if c6 then [(⟨file + 1, rank + 1⟩ : Sq)] else []
    pure (l1 ++ l2 ++ l3 ++ l4 ++ l5 ++ l6)
  else do
    let l1 := if rank = 6 ∧ isEE (readp s.position file (rank - 1)) ∧
        isEE (readp s.position file (rank - 2)) then
      [(⟨file, rank - 2⟩ : Sq)] else []
    let l2 := if rank > 0 ∧ isEE (readp s.position file (rank - 1)) then
      [(⟨file, rank - 1⟩ : Sq)] else []
    let l3 := if rank = 3 ∧ file > 0 ∧
        s.twoSquarePawnMove = some ⟨file - 1, rank⟩ then
      [(⟨file - 1, rank - 1⟩ : Sq)] else []
    let l4 := if rank = 3 ∧ file < 7 ∧
        s.twoSquarePawnMove = some ⟨file + 1, rank⟩ then
      [(⟨file + 1, rank - 1⟩ : Sq)] else []
    let c5 ← if file > 0 then attackCond (readp s.position (file - 1) (rank - 1)) piece
      else pure false
    let l5 := if c5 then [(⟨file - 1, rank - 1⟩ : Sq)] else []
    let c6 ← if file < 7 then attackCond (readp s.position (file + 1) (rank - 1)) piece
      else pure false
    let l6 := if c6 then [(⟨file + 1, rank - 1⟩ : Sq)] else []
    pure (l1 ++ l2 ++ l3 ++ l4 ++ l5 ++ l6)

/-- White pushes the g-pawn g2–g4–g5–g6, captures g6×h7, then captures
h7×g8: a white pawn reaches the last rank (promotion is not implemented,
so it stays a pawn).  All five calls are accepted pseudo-legal moves. -/
def lastRankPawnState : BoardState :=
  playPseudoLegalMove
    (playPseudoLegalMove
      (playPseudoLegalMove
        (playPseudoLegalMove
          (playPseudoLegalMove initialState ⟨6, 1⟩ ⟨6, 3⟩) ⟨6, 3⟩ ⟨6, 4⟩)
        ⟨6, 4⟩ ⟨6, 5⟩)
      ⟨6, 5⟩ ⟨7, 6⟩)
    ⟨7, 6⟩ ⟨6, 7⟩

/-- C3 (the code contradicts the claim): the state with a white pawn on g8
is reachable through the public move-execution operations, and pawn
pseudo-legal move generation for g8 does index out of range — it reads
`position[5][8]`, whose instrumented model reports the JavaScript
`TypeError` as `none`. -/
theorem c3_pawn_generation_indexes_out_of_range :
    Reachable lastRankPawnState ∧
    getp lastRankPawnState.position 6 7 = Piece.mk Color.w Kind.p ∧
    getPawnMovesChecked lastRankPawnState ⟨6, 7⟩ = none := by
  refine ⟨?_, by decide, by decide⟩
  exact Reachable.stepPseudo _ _ _ (Reachable.stepPseudo _ _ _
    (Reachable.stepPseudo _ _ _ (Reachable.stepPseudo _ _ _
      (Reachable.stepPseudo _ _ _ Reachable.init))))

/-! ## C5 -/

/-- The cached-king-square invariant: each cached square holds the matching
king. -/
def KingInv (s : BoardState) : Prop :=
  getp s.position s.whiteKingSquare.file s.whiteKingSquare.rank =
    Piece.mk Color.w Kind.k ∧
  getp s.position s.blackKingSquare.file s.blackKingSquare.rank =
    Piece.mk Color.b Kind.k

/-- A move-execution call that never writes over a standing king except by
moving that king itself: the destination holds no king, the square cleared
by the en-passant deletion holds no king, and the corner/rook squares
rewritten by the castling block hold no king (other than the mover). -/
def stepKeepsKings (s : BoardState) (fromSq toSq : Sq) : Prop :=
  kindOf (getp s.position toSq.file toSq.rank) ≠ some Kind.k ∧
  (kindOf (getp s.position fromSq.file fromSq.rank) = some Kind.p →
    fromSq.file ≠ toSq.file →
    kindOf (getp s.position toSq.file fromSq.rank) ≠ some Kind.k) ∧
  (kindOf (getp s.position fromSq.file fromSq.rank) = some Kind.k →
    toSq.file = 2 →
    (fromSq = (⟨0, toSq.rank⟩ : Sq) ∨
      kindOf (getp s.position 0 toSq.rank) ≠ some Kind.k) ∧
    (fromSq = (⟨3, toSq.rank⟩ : Sq) ∨
      kindOf (getp s.position 3 toSq.rank) ≠ some Kind.k)) ∧
  (kindOf (getp s.position fromSq.file fromSq.rank) = some Kind.k →
    toSq.file = 6 →
    (fromSq = (⟨7, toSq.rank⟩ : Sq) ∨
      kindOf (getp s.position 7 toSq.rank) ≠ some Kind.k) ∧
    (fromSq = (⟨5, toSq.rank⟩ : Sq) ∨
      kindOf (getp s.position 5 toSq.rank) ≠ some Kind.k))

/-- States reachable through the public move-execution operations by calls
that each satisfy `stepKeepsKings` (no call captures or overwrites a
standing king other than the mover). -/
inductive ReachableSafe : BoardState → Prop
  | init : ReachableSafe initialState
  | stepPseudo (s : BoardState) (fromSq toSq : Sq) :
      ReachableSafe s → stepKeepsKings s fromSq toSq →
      ReachableSafe (playPseudoLegalMove s fromSq toSq)
  | stepLegal (s : BoardState) (fromSq toSq : Sq) :
      ReachableSafe s → stepKeepsKings s fromSq toSq →
      ReachableSafe (playLegalMove s fromSq toSq)

/-- A square touched by none of the writes of the "move pieces" block reads
the same after the block. -/
lemma movedPosition_untouched (s : BoardState) (fromSq toSq u : Sq)
    (hu_t : u ≠ toSq) (hu_f : u ≠ fromSq)
    (hu_ep : kindOf (getp s.position fromSq.file fromSq.rank) = some Kind.p →
      fromSq.file ≠ toSq.file → u ≠ (⟨toSq.file, fromSq.rank⟩ : Sq))
    (hu_c : kindOf (getp s.position fromSq.file fromSq.rank) = some Kind.k →
      toSq.file = 2 →
      u ≠ (⟨0, toSq.rank⟩ : Sq) ∧ u ≠ (⟨3, toSq.rank⟩ : Sq))
    (hu_g : kindOf (getp s.position fromSq.file fromSq.rank) = some Kind.k →
      toSq.file = 6 →
      u ≠ (⟨7, toSq.rank⟩ : Sq) ∧ u ≠ (⟨5, toSq.rank⟩ : Sq)) :
    getp (movedPosition s fromSq toSq) u.file u.rank =
      getp s.position u.file u.rank := by
  have dt : toSq.file ≠ u.file ∨ toSq.rank ≠ u.rank :=
    ((sq_ne_iff u toSq).mp hu_t).imp Ne.symm Ne.symm
  have df : fromSq.file ≠ u.file ∨ fromSq.rank ≠ u.rank :=
    ((sq_ne_iff u fromSq).mp hu_f).imp Ne.symm Ne.symm
  simp only [movedPosition]
  by_cases hp3 : kindOf (getp s.position fromSq.file fromSq.rank) =
      some Kind.p ∧ ¬fromSq.file = toSq.file
  · have hk4 : ¬(kindOf (getp s.position fromSq.file fromSq.rank) =
        some Kind.k ∧ toSq.file = 2) := by
      rintro ⟨hcc, -⟩
      rw [hp3.1] at hcc
      exact Kind.noConfusion (Option.some.inj hcc)
    have hk5 : ¬(kindOf (getp s.position fromSq.file fromSq.rank) =
        some Kind.k ∧ toSq.file = 6) := by
      rintro ⟨hcc, -⟩
      rw [hp3.1] at hcc
      exact Kind.noConfusion (Option.some.inj hcc)
    rw [if_neg hk5, if_neg hk4, if_pos hp3]
    have dep : toSq.file ≠ u.file ∨ fromSq.rank ≠ u.rank :=
      ((sq_ne_iff u ⟨toSq.file, fromSq.rank⟩).mp
        (hu_ep hp3.1 hp3.2)).imp Ne.symm Ne.symm
    rw [getp_setp_ne _ _ _ _ _ _ dep, getp_setp_ne _ _ _ _ _ _ df,
      getp_setp_ne _ _ _ _ _ _ dt]
  · by_cases hk : kindOf (getp s.position fromSq.file fromSq.rank) =
        some Kind.k
    · by_cases hc2 : toSq.file = 2
      · have hk5 : ¬(kindOf (getp s.position fromSq.file fromSq.rank) =
            some Kind.k ∧ toSq.file = 6) := by
          rintro ⟨-, h6⟩
          omega
        rw [if_neg hk5, if_pos (show kindOf (getp s.position fromSq.file
            fromSq.rank) = some Kind.k ∧ toSq.file = 2 from ⟨hk, hc2⟩),
          if_neg hp3]
        have d0 : (0 : Int) ≠ u.file ∨ toSq.rank ≠ u.rank :=
          ((sq_ne_iff u ⟨0, toSq.rank⟩).mp
            ((hu_c hk hc2).1)).imp Ne.symm Ne.symm
        have d3 : (3 : Int) ≠ u.file ∨ toSq.rank ≠ u.rank :=
          ((sq_ne_iff u ⟨3, toSq.rank⟩).mp
            ((hu_c hk hc2).2)).imp Ne.symm Ne.symm
        rw [getp_setp_ne _ _ _ _ _ _ d0, getp_setp_ne _ _ _ _ _ _ d3,
          getp_setp_ne _ _ _ _ _ _ df, getp_setp_ne _ _ _ _ _ _ dt]
      · by_cases hc6 : toSq.file = 6
        · rw [if_pos (show kindOf (getp s.position fromSq.file
              fromSq.rank) = some Kind.k ∧ toSq.file = 6 from ⟨hk, hc6⟩),
            if_neg (show ¬(kindOf (getp s.position fromSq.file
              fromSq.rank) = some Kind.k ∧ toSq.file = 2) from
              fun hcc => hc2 hcc.2),
            if_neg hp3]
          have d7 : (7 : Int) ≠ u.file ∨ toSq.rank ≠ u.rank :=
            ((sq_ne_iff u ⟨7, toSq.rank⟩).mp
              ((hu_g hk hc6).1)).imp Ne.symm Ne.symm
          have d5 : (5 : Int) ≠ u.file ∨ toSq.rank ≠ u.rank :=
            ((sq_ne_iff u ⟨5, toSq.rank⟩).mp
              ((hu_g hk hc6).2)).imp Ne.symm Ne.symm
          rw [getp_setp_ne _ _ _ _ _ _ d7, getp_setp_ne _ _ _ _ _ _ d5,
            getp_setp_ne _ _ _ _ _ _ df, getp_setp_ne _ _ _ _ _ _ dt]
        · rw [if_neg (show ¬(kindOf (getp s.position fromSq.file
              fromSq.rank) = some Kind.k ∧ toSq.file = 6) from
              fun hcc => hc6 hcc.2),
            if_neg (show ¬(kindOf (getp s.position fromSq.file
              fromSq.rank) = some Kind.k ∧ toSq.file = 2) from
              fun hcc => hc2 hcc.2),
            if_neg hp3]
          rw [getp_setp_ne _ _ _ _ _ _ df, getp_setp_ne _ _ _ _ _ _ dt]
    · rw [if_neg (show ¬(kindOf (getp s.position fromSq.file
          fromSq.rank) = some Kind.k ∧ toSq.file = 6) from
          fun hcc => hk hcc.1),
        if_neg (show ¬(kindOf (getp s.position fromSq.file
          fromSq.rank) = some Kind.k ∧ toSq.file = 2) from
          fun hcc => hk hcc.1),
        if_neg hp3]
      rw [getp_setp_ne _ _ _ _ _ _ df, getp_setp_ne _ _ _ _ _ _ dt]

/-- After the "move pieces" block, a king mover stands on the destination
square. -/
lemma movedPosition_at_dest (s : BoardState) (fromSq toSq : Sq) (c : Color)
    (hc : getp s.position fromSq.file fromSq.rank = Piece.mk c Kind.k)
    (hrange : 0 ≤ toSq.file ∧ toSq.file < 8 ∧ 0 ≤ toSq.rank ∧ toSq.rank < 8)
    (hne : toSq ≠ fromSq) :
    getp (movedPosition s fromSq toSq) toSq.file toSq.rank =
      Piece.mk c Kind.k := by
  have df : fromSq.file ≠ toSq.file ∨ fromSq.rank ≠ toSq.rank :=
    ((sq_ne_iff toSq fromSq).mp hne).imp Ne.symm Ne.symm
  simp only [movedPosition, hc]
  by_cases hc2 : toSq.file = 2
  · rw [if_neg (show ¬(kindOf (Piece.mk c Kind.k) = some Kind.k ∧
        toSq.file = 6) from by rintro ⟨-, h6⟩; omega),
      if_pos (show kindOf (Piece.mk c Kind.k) = some Kind.k ∧
        toSq.file = 2 from ⟨rfl, hc2⟩),
      if_neg (show ¬(kindOf (Piece.mk c Kind.k) = some Kind.p ∧
        ¬fromSq.file = toSq.file) from
        fun hcc => Kind.noConfusion (Option.some.inj hcc.1))]
    rw [getp_setp_ne _ _ _ _ _ _ (Or.inl (by omega)),
      getp_setp_ne _ _ _ _ _ _ (Or.inl (by omega)),
      getp_setp_ne _ _ _ _ _ _ df, getp_setp_same _ _ _ _ hrange]
  · by_cases hc6 : toSq.file = 6
    · rw [if_pos (show kindOf (Piece.mk c Kind.k) = some Kind.k ∧
          toSq.file = 6 from ⟨rfl, hc6⟩),
        if_neg (show ¬(kindOf (Piece.mk c Kind.k) = some Kind.k ∧
          toSq.file = 2) from fun hcc => hc2 hcc.2),
        if_neg (show ¬(kindOf (Piece.mk c Kind.k) = some Kind.p ∧
          ¬fromSq.file = toSq.file) from
          fun hcc => Kind.noConfusion (Option.some.inj hcc.1))]
      rw [getp_setp_ne _ _ _ _ _ _ (Or.inl (by omega)),
        getp_setp_ne _ _ _ _ _ _ (Or.inl (by omega)),
        getp_setp_ne _ _ _ _ _ _ df, getp_setp_same _ _ _ _ hrange]
    · rw [if_neg (show ¬(kindOf (Piece.mk c Kind.k) = some Kind.k ∧
          toSq.file = 6) from fun hcc => hc6 hcc.2),
        if_neg (show ¬(kindOf (Piece.mk c Kind.k) = some Kind.k ∧
          toSq.file = 2) from fun hcc => hc2 hcc.2),
        if_neg (show ¬(kindOf (Piece.mk c Kind.k) = some Kind.p ∧
          ¬fromSq.file = toSq.file) from
          fun hcc => Kind.noConfusion (Option.some.inj hcc.1))]
      rw [getp_setp_ne _ _ _ _ _ _ df, getp_setp_same _ _ _ _ hrange]

/-- An accepted move that satisfies `stepKeepsKings` preserves the
cached-king-square invariant. -/
lemma kingInv_applyMove (s : BoardState) (fromSq toSq : Sq)
    (hmem : toSq ∈ getPseudoLegalMoves s fromSq)
    (hsafe : stepKeepsKings s fromSq toSq)
    (hinv : KingInv s) :
    KingInv (applyMove s fromSq toSq) := by
  obtain ⟨hW, hB⟩ := hinv
  obtain ⟨h1, h2, h3, h4⟩ := hsafe
  have hposition : (applyMove s fromSq toSq).position =
      movedPosition s fromSq toSq := rfl
  have fWt : s.whiteKingSquare ≠ toSq := by
    intro he
    rw [he] at hW
    exact h1 (by rw [hW]; rfl)
  have fBt : s.blackKingSquare ≠ toSq := by
    intro he
    rw [he] at hB
    exact h1 (by rw [hB]; rfl)
  by_cases hk : kindOf (getp s.position fromSq.file fromSq.rank) = some Kind.k
  · obtain ⟨c, hc⟩ : ∃ c, getp s.position fromSq.file fromSq.rank =
        Piece.mk c Kind.k := by
      rcases hfp : getp s.position fromSq.file fromSq.rank with _ | ⟨c', knd'⟩
      · rw [hfp] at hk
        exact absurd hk (fun hcc => Option.noConfusion hcc)
      · rw [hfp] at hk
        have hknd : knd' = Kind.k := Option.some.inj hk
        exact ⟨c', by rw [hknd]⟩
    obtain ⟨hrange, hne⟩ := mem_pseudo_king s fromSq toSq c hc hmem
    cases c with
    | w =>
      have hBf : s.blackKingSquare ≠ fromSq := by
        intro he
        rw [he, hc] at hB
        exact Color.noConfusion ((Piece.mk.injEq _ _ _ _).mp hB).1
      have hcc : kindOf (getp s.position fromSq.file fromSq.rank) =
          some Kind.k → toSq.file = 2 →
          s.blackKingSquare ≠ (⟨0, toSq.rank⟩ : Sq) ∧
          s.blackKingSquare ≠ (⟨3, toSq.rank⟩ : Sq) := by
        intro hkk h2f
        obtain ⟨d1, d2⟩ := h3 hkk h2f
        constructor
        · intro he
          rcases d1 with d1 | d1
          · exact hBf (he.trans d1.symm)
          · rw [he] at hB
            exact d1 (congrArg kindOf hB)
        · intro he
          rcases d2 with d2 | d2
          · exact hBf (he.trans d2.symm)
          · rw [he] at hB
            exact d2 (congrArg kindOf hB)
      have hgg : kindOf (getp s.position fromSq.file fromSq.rank) =
          some Kind.k → toSq.file = 6 →
          s.blackKingSquare ≠ (⟨7, toSq.rank⟩ : Sq) ∧
          s.blackKingSquare ≠ (⟨5, toSq.rank⟩ : Sq) := by
        intro hkk h6f
        obtain ⟨d1, d2⟩ := h4 hkk h6f
        constructor
        · intro he
          rcases d1 with d1 | d1
          · exact hBf (he.trans d1.symm)
          · rw [he] at hB
            exact d1 (congrArg kindOf hB)
        · intro he
          rcases d2 with d2 | d2
          · exact hBf (he.trans d2.symm)
          · rw [he] at hB
            exact d2 (congrArg kindOf hB)
      have hep : kindOf (getp s.position fromSq.file fromSq.rank) =
          some Kind.p → fromSq.file ≠ toSq.file →
          s.blackKingSquare ≠ (⟨toSq.file, fromSq.rank⟩ : Sq) := by
        intro hp _
        rw [hc] at hp
        exact absurd (Option.some.inj hp) (fun hh => Kind.noConfusion hh)
      constructor
      · have hwks : (applyMove s fromSq toSq).whiteKingSquare = toSq := by
          simp only [applyMove]
          rw [if_pos hc]
        rw [hwks, hposition]
        exact movedPosition_at_dest s fromSq toSq Color.w hc hrange hne
      · have hbks : (applyMove s fromSq toSq).blackKingSquare =
            s.blackKingSquare := by
          simp only [applyMove]
          rw [if_neg (fun he => Color.noConfusion
            ((Piece.mk.injEq _ _ _ _).mp (hc.symm.trans he)).1)]
        rw [hbks, hposition]
        rw [movedPosition_untouched s fromSq toSq s.blackKingSquare fBt hBf
          hep hcc hgg]
        exact hB
    | b =>
      have hWf : s.whiteKingSquare ≠ fromSq := by
        intro he
        rw [he, hc] at hW
        exact Color.noConfusion ((Piece.mk.injEq _ _ _ _).mp hW).1
      have hcc : kindOf (getp s.position fromSq.file fromSq.rank) =
          some Kind.k → toSq.file = 2 →
          s.whiteKingSquare ≠ (⟨0, toSq.rank⟩ : Sq) ∧
          s.whiteKingSquare ≠ (⟨3, toSq.rank⟩ : Sq) := by
        intro hkk h2f
        obtain ⟨d1, d2⟩ := h3 hkk h2f
        constructor
        · intro he
          rcases d1 with d1 | d1
          · exact hWf (he.trans d1.symm)
          · rw [he] at hW
            exact d1 (congrArg kindOf hW)
        · intro he
          rcases d2 with d2 | d2
          · exact hWf (he.trans d2.symm)
          · rw [he] at hW
            exact d2 (congrArg kindOf hW)
      have hgg : kindOf (getp s.position fromSq.file fromSq.rank) =
          some Kind.k → toSq.file = 6 →
          s.whiteKingSquare ≠ (⟨7, toSq.rank⟩ : Sq) ∧
          s.whiteKingSquare ≠ (⟨5, toSq.rank⟩ : Sq) := by
        intro hkk h6f
        obtain ⟨d1, d2⟩ := h4 hkk h6f
        constructor
        · intro he
          rcases d1 with d1 | d1
          · exact hWf (he.trans d1.symm)
          · rw [he] at hW
            exact d1 (congrArg kindOf hW)
        · intro he
          rcases d2 with d2 | d2
          · exact hWf (he.trans d2.symm)
          · rw [he] at hW
            exact d2 (congrArg kindOf hW)
      have hep : kindOf (getp s.position fromSq.file fromSq.rank) =
          some Kind.p → fromSq.file ≠ toSq.file →
          s.whiteKingSquare ≠ (⟨toSq.file, fromSq.rank⟩ : Sq) := by
        intro hp _
        rw [hc] at hp
        exact absurd (Option.some.inj hp) (fun hh => Kind.noConfusion hh)
      constructor
      · have hwks : (applyMove s fromSq toSq).whiteKingSquare =
            s.whiteKingSquare := by
          simp only [applyMove]
          rw [if_neg (fun he => Color.noConfusion
            ((Piece.mk.injEq _ _ _ _).mp (hc.symm.trans he)).1)]
        rw [hwks, hposition]
        rw [movedPosition_untouched s fromSq toSq s.whiteKingSquare fWt hWf
          hep hcc hgg]
        exact hW
      · have hbks : (applyMove s fromSq toSq).blackKingSquare = toSq := by
          simp only [applyMove]
          rw [if_pos hc]
        rw [hbks, hposition]
        exact movedPosition_at_dest s fromSq toSq Color.b hc hrange hne
  · have hWf : s.whiteKingSquare ≠ fromSq := by
      intro he
      rw [he] at hW
      exact hk (by rw [hW]; rfl)
    have hBf : s.blackKingSquare ≠ fromSq := by
      intro he
      rw [he] at hB
      exact hk (by rw [hB]; rfl)
    have hwks : (applyMove s fromSq toSq).whiteKingSquare =
        s.whiteKingSquare := by
      simp only [applyMove]
      rw [if_neg (fun he => hk (by rw [he]; rfl))]
    have hbks : (applyMove s fromSq toSq).blackKingSquare =
        s.blackKingSquare := by
      simp only [applyMove]
      rw [if_neg (fun he => hk (by rw [he]; rfl))]
    have hvacc : ∀ u : Sq, kindOf (getp s.position fromSq.file fromSq.rank) =
        some Kind.k → toSq.file = 2 →
        u ≠ (⟨0, toSq.rank⟩ : Sq) ∧ u ≠ (⟨3, toSq.rank⟩ : Sq) :=
      fun _ hkk => absurd hkk hk
    have hvacg : ∀ u : Sq, kindOf (getp s.position fromSq.file fromSq.rank) =
        some Kind.k → toSq.file = 6 →
        u ≠ (⟨7, toSq.rank⟩ : Sq) ∧ u ≠ (⟨5, toSq.rank⟩ : Sq) :=
      fun _ hkk => absurd hkk hk
    constructor
    · have hep : kindOf (getp s.position fromSq.file fromSq.rank) =
          some Kind.p → fromSq.file ≠ toSq.file →
          s.whiteKingSquare ≠ (⟨toSq.file, fromSq.rank⟩ : Sq) := by
        intro hp hff he
        rw [he] at hW
        exact h2 hp hff (congrArg kindOf hW)
      rw [hwks, hposition]
      rw [movedPosition_untouched s fromSq toSq s.whiteKingSquare fWt hWf
        hep (hvacc _) (hvacg _)]
      exact hW
    · have hep : kindOf (getp s.position fromSq.file fromSq.rank) =
          some Kind.p → fromSq.file ≠ toSq.file →
          s.blackKingSquare ≠ (⟨toSq.file, fromSq.rank⟩ : Sq) := by
        intro hp hff he
        rw [he] at hB
        exact h2 hp hff (congrArg kindOf hB)
      rw [hbks, hposition]
      rw [movedPosition_untouched s fromSq toSq s.blackKingSquare fBt hBf
        hep (hvacc _) (hvacg _)]
      exact hB

lemma kingInv_playPseudo (s : BoardState) (fromSq toSq : Sq)
    (hsafe : stepKeepsKings s fromSq toSq) (hinv : KingInv s) :
    KingInv (playPseudoLegalMove s fromSq toSq) := by
  by_cases hmem : toSq ∈ getPseudoLegalMoves s fromSq
  · rw [playPseudo_of_mem s fromSq toSq hmem]
    exact kingInv_applyMove s fromSq toSq hmem hsafe hinv
  · rw [playPseudo_of_not_mem s fromSq toSq hmem]
    exact hinv

lemma kingInv_playLegal (s : BoardState) (fromSq toSq : Sq)
    (hsafe : stepKeepsKings s fromSq toSq) (hinv : KingInv s) :
    KingInv (playLegalMove s fromSq toSq) := by
  by_cases hmem : toSq ∈ getLegalMoves s fromSq
  · rw [playLegal_of_mem s fromSq toSq hmem]
    exact kingInv_applyMove s fromSq toSq
      (legal_subset_pseudo s fromSq toSq hmem) hsafe hinv
  · rw [playLegal_of_not_mem s fromSq toSq hmem]
    exact hinv

/-- C5 as amended: in every state reached through the engine's
move-execution operations by calls that never capture or overwrite a
standing king (other than by moving that king itself), each cached king
square holds the matching king. -/
theorem c5_king_cache_invariant_amended (s : BoardState)
    (h : ReachableSafe s) : KingInv s := by
  induction h with
  | init => exact ⟨by decide, by decide⟩
  | stepPseudo s fromSq toSq _ hsafe ih =>
    exact kingInv_playPseudo s fromSq toSq hsafe ih
  | stepLegal s fromSq toSq _ hsafe ih =>
    exact kingInv_playLegal s fromSq toSq hsafe ih

/-- Witness for C5 (amended): the invariant at the initial state, through
the theorem. -/
theorem c5_king_cache_invariant_amended_witness : KingInv initialState :=
  c5_king_cache_invariant_amended initialState ReachableSafe.init

/-- e2–e4, Qd1–h5, Qh5×f7, Qf7×e8: the white queen pseudo-legally captures
the black king. -/
def kingCapturedState : BoardState :=
  playPseudoLegalMove
    (playPseudoLegalMove
      (playPseudoLegalMove (playPseudoLegalMove initialState ⟨4, 1⟩ ⟨4, 3⟩)
        ⟨3, 0⟩ ⟨7, 4⟩)
      ⟨7, 4⟩ ⟨5, 6⟩)
    ⟨5, 6⟩ ⟨4, 7⟩

/-- Counterexample to C5 as stated: a state reachable through the engine's
own move-execution operations (four accepted pseudo-legal moves) in which
the cached black king square e8 holds a white queen, not a black king. -/
theorem c5_counterexample_king_captured :
    Reachable kingCapturedState ∧ ¬ KingInv kingCapturedState := by
  constructor
  · exact Reachable.stepPseudo _ _ _ (Reachable.stepPseudo _ _ _
      (Reachable.stepPseudo _ _ _ (Reachable.stepPseudo _ _ _
        Reachable.init)))
  · unfold KingInv
    decide

/-! ## C8 -/

/-- A pawn pseudo-legal move across more than one rank is the two-square
advance, whose guard requires the destination square to be empty. -/
lemma mem_pawn_far (s : BoardState) (fromSq toSq : Sq)
    (h : toSq ∈ getPawnPseudoLegalMoves s fromSq)
    (hfar : (fromSq.rank - toSq.rank).natAbs > 1) :
    getp s.position toSq.file toSq.rank = Piece.ee := by
  unfold getPawnPseudoLegalMoves at h
  by_cases hp : getp s.position fromSq.file fromSq.rank = Piece.ee
  · rw [if_pos hp] at h
    exact absurd h (List.not_mem_nil _)
  · rw [if_neg hp] at h
    by_cases hw : colorOf (getp s.position fromSq.file fromSq.rank) =
        some Color.w
    · rw [if_pos hw] at h
      simp only [List.mem_append] at h
      rcases h with ((((h | h) | h) | h) | h) | h <;>
        · split at h
          · rw [List.mem_singleton] at h
            subst h
            first
            | (rename_i hcond
               exact hcond.2.2)
            | (exfalso
               dsimp only at hfar
               omega)
          · exact absurd h (List.not_mem_nil _)
    · rw [if_neg hw] at h
      simp only [List.mem_append] at h
      rcases h with ((((h | h) | h) | h) | h) | h <;>
        · split at h
          · rw [List.mem_singleton] at h
            subst h
            first
            | (rename_i hcond
               exact hcond.2.2)
            | (exfalso
               dsimp only at hfar
               omega)
          · exact absurd h (List.not_mem_nil _)

/-- The state after the legal move e2–e4 from the initial position. -/
def afterE4 : BoardState := playLegalMove initialState ⟨4, 1⟩ ⟨4, 3⟩

/-- Every legal reply by a black piece in a state: each black-occupied
square paired with each of its legal destinations. -/
def legalBlackReplies (s : BoardState) : List (Sq × Sq) :=
  (allSquares.filter fun sq =>
    decide (colorOf (getp s.position sq.file sq.rank) = some Color.b)).flatMap
    fun fromSq => (getLegalMoves s fromSq).map fun toSq => (fromSq, toSq)

/-- The three black replies that block the en-passant scenario by occupying
d5, d6 or e5: d7–d5, d7–d6 and e7–e5. -/
def c8BadReplies : List (Sq × Sq) :=
  [(⟨3, 6⟩, ⟨3, 4⟩), (⟨3, 6⟩, ⟨3, 5⟩), (⟨4, 6⟩, ⟨4, 4⟩)]

/-- The state after e2–e4, a given black reply, e4–e5 and d7–d5 (all via
legal execution). -/
def epScenarioState (m : Sq × Sq) : BoardState :=
  playLegalMove
    (playLegalMove (playLegalMove afterE4 m.1 m.2) ⟨4, 3⟩ ⟨4, 4⟩)
    ⟨3, 6⟩ ⟨3, 4⟩

lemma c8_replies_enum :
    ((legalBlackReplies afterE4).all fun m =>
      decide (m ∈ c8BadReplies) ||
        decide ((⟨3, 5⟩ : Sq) ∈ getLegalMoves (epScenarioState m) ⟨4, 4⟩)) =
      true := by
  decide

/-- C8 as amended, in three parts.  (i) After e2–e4, any legal Black reply
other than the three that occupy d5, d6 or e5, then e4–e5 and d7–d5, d6 is
in the legal-move set of the white pawn on e5 (the en-passant capture).
(ii) Any accepted next move in a state whose d5 square holds a black pawn
leaves the en-passant target different from d5 — the target is set to the
destination only of a two-square pawn advance (impossible onto the occupied
d5) and cleared to none by every other executed move.  (iii) Once the
en-passant target is not d5, d6 is out of the legal-move set of a white
pawn on e5 as long as d6 itself is empty — so after the next move the
en-passant offer on d6 is gone (d6 could stay in the set only as an
ordinary capture of a piece that moved onto d6). -/
theorem c8_en_passant_window_amended :
    (∀ m ∈ legalBlackReplies afterE4, m ∉ c8BadReplies →
      (⟨3, 5⟩ : Sq) ∈ getLegalMoves (epScenarioState m) ⟨4, 4⟩) ∧
    (∀ (s : BoardState) (fromSq toSq : Sq),
      getp s.position 3 4 = Piece.mk Color.b Kind.p →
      moveIsPseudoLegal s fromSq toSq = true →
      (playPseudoLegalMove s fromSq toSq).twoSquarePawnMove ≠
        some ⟨3, 4⟩) ∧
    (∀ s : BoardState, s.twoSquarePawnMove ≠ some ⟨3, 4⟩ →
      getp s.position 3 5 = Piece.ee →
      getp s.position 4 4 = Piece.mk Color.w Kind.p →
      (⟨3, 5⟩ : Sq) ∉ getLegalMoves s ⟨4, 4⟩) := by
  refine ⟨?_, ?_, ?_⟩
  · intro m hmem hbad
    have henum := c8_replies_enum
    rw [List.all_eq_true] at henum
    have hm := henum m hmem
    rw [Bool.or_eq_true, decide_eq_true_eq, decide_eq_true_eq] at hm
    rcases hm with hm | hm
    · exact absurd hm hbad
    · exact hm
  · intro s fromSq toSq hd5 hpl hcontra
    have hmem : toSq ∈ getPseudoLegalMoves s fromSq := by
      simpa [moveIsPseudoLegal] using hpl
    rw [playPseudo_of_mem s fromSq toSq hmem] at hcontra
    simp only [applyMove] at hcontra
    split at hcontra
    · rename_i hcond
      obtain rfl : toSq = (⟨3, 4⟩ : Sq) := Option.some.inj hcontra
      have hpawn : (⟨3, 4⟩ : Sq) ∈ getPawnPseudoLegalMoves s fromSq := by
        unfold getPseudoLegalMoves at hmem
        rcases hfp : getp s.position fromSq.file fromSq.rank with _ | ⟨c, knd⟩
        · rw [hfp] at hmem
          exact absurd hmem (List.not_mem_nil _)
        · have hknd : knd = Kind.p := by
            have := hcond.1
            rw [hfp] at this
            exact Option.some.inj this
          rw [hfp, hknd] at hmem
          exact hmem
      have hee := mem_pawn_far s fromSq ⟨3, 4⟩ hpawn hcond.2
      exact Piece.noConfusion (hd5.symm.trans hee)
    · exact Option.noConfusion hcontra
  · intro s hts hd6 he5 hmem
    have hp := legal_subset_pseudo s ⟨4, 4⟩ ⟨3, 5⟩ hmem
    unfold getPseudoLegalMoves at hp
    rw [show getp s.position (⟨4, 4⟩ : Sq).file (⟨4, 4⟩ : Sq).rank =
      Piece.mk Color.w Kind.p from he5] at hp
    simp only [getPawnPseudoLegalMoves, colorOf, he5, hts, hd6,
      List.mem_append, List.mem_ite_nil_right, List.mem_singleton,
      Sq.mk.injEq] at hp
    norm_num at hp
    rcases hp.2 with hcase | hcase
    · exact hts hcase
    · exact hcase.1 hd6

/-- Witness for C8 (amended): with the reply Ng8–f6, d6 is indeed offered
to the e5 pawn; and the two generic parts applied at that very state and
the next move d8–e8 does not re-create the d5 target. -/
theorem c8_en_passant_window_amended_witness :
    (⟨3, 5⟩ : Sq) ∈ getLegalMoves (epScenarioState (⟨6, 7⟩, ⟨5, 5⟩)) ⟨4, 4⟩ :=
  c8_en_passant_window_amended.1 (⟨6, 7⟩, ⟨5, 5⟩) (by decide) (by decide)

/-- The scenario state with the blocking reply e7–e5. -/
def epBlockedState : BoardState := epScenarioState (⟨4, 6⟩, ⟨4, 4⟩)

/-- Counterexample to C8 as stated: with the legal Black reply e7–e5, the
move e4–e5 is rejected (e5 is occupied), d7–d5 still executes, and
afterwards e5 holds Black's pawn and d6 is not in the legal-move set of
square e5 — so "any legal Black reply" is too strong. -/
theorem c8_counterexample_blocked_reply :
    ((⟨4, 6⟩ : Sq), (⟨4, 4⟩ : Sq)) ∈ legalBlackReplies afterE4 ∧
    getp epBlockedState.position 4 4 = Piece.mk Color.b Kind.p ∧
    (⟨3, 5⟩ : Sq) ∉ getLegalMoves epBlockedState ⟨4, 4⟩ := by
  refine ⟨by decide, by decide, by decide⟩

end ChessTrainer
